import Mathlib

/-!
Verification of `transfer_tasks.py` (Google-Tasks-Migration).

Shallow embedding of the script's core: configuration constants, the
HTTP-error retry classifier, the retry/backoff executor, the task-body
translator, the checkpoint store, and the per-collection copy loop of
`transfer`.  Machine floats of the source (0.35, 1.5, 90, 0.75) are
embedded as exact rationals; wall-clock time and randomness are modelled
by oracles passed in explicitly.
-/

namespace TransferTasks

/-- Constant `MIN_INSERT_INTERVAL_SEC = 0.35` (seconds between inserts). -/
def MIN_INSERT_INTERVAL_SEC : ℚ := 7/20

/-- Constant `MAX_RETRIES = 12`. -/
def MAX_RETRIES : Nat := 12

/-- Constant `BACKOFF_BASE_SEC = 1.5`. -/
def BACKOFF_BASE_SEC : ℚ := 3/2

/-- Constant `BACKOFF_MAX_SEC = 90`. -/
def BACKOFF_MAX_SEC : ℚ := 90

/-- Jitter upper bound: `random.uniform(0, 0.75)`. -/
def JITTER_MAX : ℚ := 3/4

/-- A source task dict.  `id` is present and truthy (guaranteed by the
filter at the end of `list_all_tasks`); the remaining keys are optional
(`none` models an absent key). -/
structure Task where
  id : String
  title : Option String := none
  notes : Option String := none
  status : Option String := none
  due : Option String := none
  completed : Option String := none
deriving DecidableEq, Repr

/-- Python truthiness of an optional string: `None` and `""` are falsy. -/
def truthy : Option String → Bool
  | none => false
  | some s => !(s == "")

/-- The destination-insert payload built by `build_task_body`.  `due` and
`completed` are `none` when the corresponding key is absent from the
payload dict. -/
structure TaskBody where
  title : String
  notes : String
  status : String
  due : Option String := none
  completed : Option String := none
deriving DecidableEq, Repr

/-- Translator `build_task_body(src_task)`: title and notes default to `""`; status is
`"completed"` iff the source status equals `"completed"`; `due` /
`completed` keys are set only when the source value is truthy. -/
def build_task_body (src_task : Task) : TaskBody :=
  { title := src_task.title.getD ""
    notes := src_task.notes.getD ""
    status := if src_task.status = some "completed" then "completed" else "needsAction"
    due := if truthy src_task.due then src_task.due else none
    completed := if truthy src_task.completed then src_task.completed else none }

/-- The JSON object written to the checkpoint file: one recognized key,
`copied_source_task_ids`, holding an array of strings. -/
structure CheckpointFile where
  copied_source_task_ids : List String
deriving DecidableEq, Repr

/-- Saving, `save_checkpoint(copied_ids)`: the JSON value written is the sorted
list of the set's elements under the single key. -/
def save_checkpoint (copied_ids : Finset String) : CheckpointFile :=
  ⟨copied_ids.sort (· ≤ ·)⟩

/-- Loading, `load_checkpoint()`: a missing file yields the empty set; otherwise the
array under `copied_source_task_ids` (default `[]`) is turned into a set. -/
def load_checkpoint (file : Option CheckpointFile) : Finset String :=
  match file with
  | none => ∅
  | some data => data.copied_source_task_ids.toFinset

/-- An `HttpError`: `getattr(e.resp, "status", None)` may be absent. -/
structure HttpError where
  status : Option Nat
deriving DecidableEq, Repr

/-- Classifier `should_retry_http_error(e)`: retry exactly on status 403, 429, 500, 503. -/
def should_retry_http_error (e : HttpError) : Bool :=
  match e.status with
  | some s => s == 403 || s == 429 || s == 500 || s == 503
  | none => false

/-- Observable events of `execute_with_retry`: an invocation of the
callable (0-indexed attempt number) and a `time.sleep` of a duration. -/
inductive RetryEvent where
  | attempt (k : Nat)
  | sleep (d : ℚ)
deriving DecidableEq, Repr

/-- The backoff duration slept after a retryable failure at 0-indexed
attempt `k`, with the jitter oracle `jit` standing for
`random.uniform(0, 0.75)`:
`min(BACKOFF_MAX_SEC, BACKOFF_BASE_SEC ** attempt) + random.uniform(0, 0.75)`. -/
def backoff_sleep (jit : Nat → ℚ) (k : Nat) : ℚ :=
  min BACKOFF_MAX_SEC (BACKOFF_BASE_SEC ^ k) + jit k

/-- The loop body of `execute_with_retry`, unrolled from attempt number
`k` with `remaining` iterations of `range(MAX_RETRIES)` left and the
current `last_err`.  `op n` is the outcome of the n-th invocation of
`callable_fn` (an `HttpError` or a result).  Returns the event trace and
the final outcome; `Except.error none` models the degenerate
`raise None` that Python would reach only if `MAX_RETRIES = 0`. -/
def execute_with_retry_from (op : Nat → Except HttpError α) (jit : Nat → ℚ) :
    Nat → Nat → Option HttpError → List RetryEvent × Except (Option HttpError) α
  | _, 0, last_err => ([], Except.error last_err)
  | k, remaining + 1, _ =>
    match op k with
    | Except.ok a => ([RetryEvent.attempt k], Except.ok a)
    | Except.error e =>
      if should_retry_http_error e then
        let rest := execute_with_retry_from op jit (k + 1) remaining (some e)
        (RetryEvent.attempt k :: RetryEvent.sleep (backoff_sleep jit k) :: rest.1, rest.2)
      else
        ([RetryEvent.attempt k], Except.error (some e))

/-- Executor `execute_with_retry(callable_fn, ...)`: run the retry loop for
`MAX_RETRIES` iterations starting at attempt 0 with `last_err = None`. -/
def execute_with_retry (op : Nat → Except HttpError α) (jit : Nat → ℚ) :
    List RetryEvent × Except (Option HttpError) α :=
  execute_with_retry_from op jit 0 MAX_RETRIES none

/-- Number of invocations of the callable recorded in a trace. -/
def countAttempts : List RetryEvent → Nat
  | [] => 0
  | RetryEvent.attempt _ :: evs => countAttempts evs + 1
  | RetryEvent.sleep _ :: evs => countAttempts evs

/-- Mutable state of the per-collection copy loop in `transfer`
(lines 168-205): the shared `copied_ids` set, the per-collection
`inserted` / `skipped` counters, `last_insert_time`, plus the model's
wall clock and a counter of `time.time()` calls (index into the clock
oracle). -/
structure LoopState where
  copied : Finset String
  skipped : Nat
  inserted : Nat
  last_insert_time : ℚ
  clock : ℚ
  tcount : Nat
deriving DecidableEq

/-- Observable events of the copy loop: skipping a checkpointed item,
a throttle `time.sleep`, the start of a destination insert (tagged with
the source task id being processed, the wall-clock time at which the
insert begins, and the payload), and a `save_checkpoint` flush of a set. -/
inductive Event where
  | skip (id : String)
  | sleep (d : ℚ)
  | insertStart (id : String) (t : ℚ) (body : TaskBody)
  | save (s : Finset String)
deriving DecidableEq

/-- One iteration of `for t in tasks` (lines 177-203).  `ins id` tells
whether `execute_with_retry` around the insert eventually returns
(`true`) or raises a terminal failure (`false`); `adv n` is the
non-negative amount of wall-clock time that passes before the n-th
`time.time()` call of the run (network latency etc.); `time.sleep(d)`
advances the clock by exactly `d`.  Returns the new state, the events of
the iteration, and whether an exception aborted the loop. -/
def processItem (ins : String → Bool) (adv : Nat → ℚ) (st : LoopState) (t : Task) :
    LoopState × List Event × Bool :=
  if t.id ∈ st.copied then
    ({ st with skipped := st.skipped + 1 }, [Event.skip t.id], false)
  else
    let now := st.clock + adv st.tcount
    let elapsed := now - st.last_insert_time
    let sleepEvs := if elapsed < MIN_INSERT_INTERVAL_SEC
      then [Event.sleep (MIN_INSERT_INTERVAL_SEC - elapsed)] else []
    let start := if elapsed < MIN_INSERT_INTERVAL_SEC
      then now + (MIN_INSERT_INTERVAL_SEC - elapsed) else now
    let body := build_task_body t
    if ins t.id then
      let fin := start + adv (st.tcount + 1)
      let copied' := insert t.id st.copied
      let inserted' := st.inserted + 1
      let st' : LoopState :=
        { copied := copied', skipped := st.skipped, inserted := inserted',
          last_insert_time := fin, clock := fin, tcount := st.tcount + 2 }
      let saveEvs := if inserted' % 20 = 0 then [Event.save copied'] else []
      (st', sleepEvs ++ [Event.insertStart t.id start body] ++ saveEvs, false)
    else
      ({ st with clock := start, tcount := st.tcount + 1 },
        sleepEvs ++ [Event.insertStart t.id start body], true)

/-- The `for t in tasks` loop: process items in order, stopping when an
iteration raises (the exception propagates out of the loop). -/
def runLoop (ins : String → Bool) (adv : Nat → ℚ) (st : LoopState) :
    List Task → LoopState × List Event × Bool
  | [] => (st, [], false)
  | t :: ts =>
    let step := processItem ins adv st t
    if step.2.2 then (step.1, step.2.1, true)
    else
      let rest := runLoop ins adv step.1 ts
      (rest.1, step.2.1 ++ rest.2.1, rest.2.2)

/-- One `for src_list_id, dest_list_id in list_id_map.items()` body
(lines 168-206): run the item loop from fresh per-collection counters,
then `save_checkpoint(copied_ids)` after the loop — reached only when no
exception escaped the loop. -/
def copyCollection (ins : String → Bool) (adv : Nat → ℚ) (copied0 : Finset String)
    (clock0 : ℚ) (tcount0 : Nat) (tasks : List Task) :
    LoopState × List Event × Bool :=
  let st0 : LoopState :=
    { copied := copied0, skipped := 0, inserted := 0,
      last_insert_time := 0, clock := clock0, tcount := tcount0 }
  let r := runLoop ins adv st0 tasks
  if r.2.2 then r else (r.1, r.2.1 ++ [Event.save r.1.copied], false)

/-- The whole copy phase of `transfer` (lines 168-206): the outer
`for src_list_id, dest_list_id in list_id_map.items()` loop.  Each
collection starts from fresh `inserted` / `skipped` counters and
`last_insert_time = 0.0` (lines 173-175), while `copied_ids` and the wall
clock carry over; an exception escaping one collection's item loop aborts
the whole run. -/
def copyPhase (ins : String → Bool) (adv : Nat → ℚ) :
    List (List Task) → Finset String → ℚ → Nat → LoopState × List Event × Bool
  | [], copied0, clock0, tcount0 => (⟨copied0, 0, 0, 0, clock0, tcount0⟩, [], false)
  | tasks :: colls, copied0, clock0, tcount0 =>
    let r := copyCollection ins adv copied0 clock0 tcount0 tasks
    if r.2.2 then r
    else
      let rest := copyPhase ins adv colls r.1.copied r.1.clock r.1.tcount
      (rest.1, r.2.1 ++ rest.2.1, rest.2.2)

/-- The checkpoint sets flushed by `save_checkpoint`, in trace order. -/
def savesOf : List Event → List (Finset String)
  | [] => []
  | Event.save s :: evs => s :: savesOf evs
  | Event.skip _ :: evs => savesOf evs
  | Event.sleep _ :: evs => savesOf evs
  | Event.insertStart _ _ _ :: evs => savesOf evs

/-- The wall-clock start times of destination inserts, in trace order. -/
def startsOf : List Event → List ℚ
  | [] => []
  | Event.insertStart _ t _ :: evs => t :: startsOf evs
  | Event.skip _ :: evs => startsOf evs
  | Event.sleep _ :: evs => startsOf evs
  | Event.save _ :: evs => startsOf evs

/-- The source ids whose destination insert was started, in trace order. -/
def insertIdsOf : List Event → List String
  | [] => []
  | Event.insertStart i _ _ :: evs => i :: insertIdsOf evs
  | Event.skip _ :: evs => insertIdsOf evs
  | Event.sleep _ :: evs => insertIdsOf evs
  | Event.save _ :: evs => insertIdsOf evs

/-- The JSON text `json.dump({"copied_source_task_ids": ids}, f, indent=2)`
writes (string escaping inside ids elided). -/
def render_checkpoint_ids (ids : List String) : String :=
  match ids with
  | [] => "[]"
  | _ => "[\n" ++ String.intercalate ",\n" (ids.map (fun s => "    \"" ++ s ++ "\"")) ++ "\n  ]"

def serialize_checkpoint (ids : List String) : String :=
  "\x7b\n  \"copied_source_task_ids\": " ++ render_checkpoint_ids ids ++ "\n\x7d"

/-- A file content that parses as a checkpoint: the serialization of some
id list.  `json.load` fails on anything else (e.g. the empty string). -/
def is_serialized_checkpoint (c : String) : Prop :=
  ∃ l : List String, c = serialize_checkpoint l

/-- The successive contents of `CHECKPOINT_FILE` (`none` = absent) while
`save_checkpoint(copied_ids)` runs: the prior content, then the empty
file the moment `open(CHECKPOINT_FILE, "w")` truncates it, then the full
dump (the streaming of `json.dump` is coarsened to a single write; the
real run only has more intermediate states).  There is no temporary file
and no rename anywhere in `save_checkpoint`. -/
def save_checkpoint_file_states (prior : Option String) (copied_ids : Finset String) :
    List (Option String) :=
  [prior, some "", some (serialize_checkpoint (copied_ids.sort (· ≤ ·)))]

end TransferTasks

namespace TransferTasks

theorem savesOf_append (a b : List Event) : savesOf (a ++ b) = savesOf a ++ savesOf b := by
  induction a with
  | nil => rfl
  | cons e a ih => cases e <;> simp [savesOf, ih]

theorem startsOf_append (a b : List Event) : startsOf (a ++ b) = startsOf a ++ startsOf b := by
  induction a with
  | nil => rfl
  | cons e a ih => cases e <;> simp [startsOf, ih]

theorem insertIdsOf_append (a b : List Event) :
    insertIdsOf (a ++ b) = insertIdsOf a ++ insertIdsOf b := by
  induction a with
  | nil => rfl
  | cons e a ih => cases e <;> simp [insertIdsOf, ih]

/-- An item already in `copied_ids` is counted as skipped and nothing else
happens: no event but the skip, no state change but the counter. -/
theorem processItem_of_mem (ins : String → Bool) (adv : Nat → ℚ) (st : LoopState)
    (t : Task) (h : t.id ∈ st.copied) :
    processItem ins adv st t
      = ({ st with skipped := st.skipped + 1 }, [Event.skip t.id], false) := by
  simp [processItem, h]

/-- The set `copied_ids` never loses elements in one iteration. -/
theorem processItem_copied_mono (ins : String → Bool) (adv : Nat → ℚ) (st : LoopState)
    (t : Task) : st.copied ⊆ (processItem ins adv st t).1.copied := by
  unfold processItem
  by_cases h1 : t.id ∈ st.copied
  · simp [h1]
  · by_cases h2 : ins t.id = true
    · simp only [h1, if_neg, if_pos, h2, not_false_iff]
      exact Finset.subset_insert _ _
    · simp [h1, h2]

/-- The set `copied_ids` never loses elements across the loop. -/
theorem runLoop_copied_mono (ins : String → Bool) (adv : Nat → ℚ) :
    ∀ (ts : List Task) (st : LoopState),
      st.copied ⊆ (runLoop ins adv st ts).1.copied := by
  intro ts
  induction ts with
  | nil => intro st; simp [runLoop]
  | cons t ts ih =>
    intro st
    simp only [runLoop]
    by_cases hab : (processItem ins adv st t).2.2
    · simpa [hab] using processItem_copied_mono ins adv st t
    · simp only [hab, Bool.false_eq_true, if_neg, not_false_iff]
      exact subset_trans (processItem_copied_mono ins adv st t) (ih _)

theorem savesOf_sleep_if (c : Prop) [Decidable c] (d : ℚ) :
    savesOf (if c then [Event.sleep d] else []) = [] := by
  split <;> simp [savesOf]

theorem startsOf_sleep_if (c : Prop) [Decidable c] (d : ℚ) :
    startsOf (if c then [Event.sleep d] else []) = [] := by
  split <;> simp [startsOf]

theorem insertIdsOf_sleep_if (c : Prop) [Decidable c] (d : ℚ) :
    insertIdsOf (if c then [Event.sleep d] else []) = [] := by
  split <;> simp [insertIdsOf]

theorem savesOf_save_if (c : Prop) [Decidable c] (s : Finset String) :
    savesOf (if c then [Event.save s] else []) = if c then [s] else [] := by
  split <;> simp [savesOf]

theorem startsOf_save_if (c : Prop) [Decidable c] (s : Finset String) :
    startsOf (if c then [Event.save s] else []) = [] := by
  split <;> simp [startsOf]

theorem insertIdsOf_save_if (c : Prop) [Decidable c] (s : Finset String) :
    insertIdsOf (if c then [Event.save s] else []) = [] := by
  split <;> simp [insertIdsOf]

/-- Every checkpoint set flushed inside one iteration is the iteration's
final `copied_ids`. -/
theorem processItem_saves (ins : String → Bool) (adv : Nat → ℚ) (st : LoopState)
    (t : Task) :
    ∀ s ∈ savesOf (processItem ins adv st t).2.1, s = (processItem ins adv st t).1.copied := by
  unfold processItem
  by_cases h1 : t.id ∈ st.copied
  · simp [h1, savesOf]
  · by_cases h2 : ins t.id = true
    · simp only [h1, if_neg, if_pos, h2, not_false_iff, savesOf_append,
        savesOf_sleep_if, savesOf_save_if, savesOf]
      intro s hs
      simp only [List.nil_append, List.singleton_append, savesOf] at hs
      split at hs <;> simp_all [savesOf]
    · simp [h1, h2, savesOf_append, savesOf_sleep_if, savesOf]

/-- The only insert started inside one iteration is for an id not yet in
`copied_ids`. -/
theorem processItem_insertIds (ins : String → Bool) (adv : Nat → ℚ) (st : LoopState)
    (t : Task) :
    ∀ id ∈ insertIdsOf (processItem ins adv st t).2.1, id ∉ st.copied := by
  unfold processItem
  by_cases h1 : t.id ∈ st.copied
  · simp [h1, insertIdsOf]
  · by_cases h2 : ins t.id = true
    · simp only [h1, if_neg, if_pos, h2, not_false_iff, insertIdsOf_append,
        insertIdsOf_sleep_if, insertIdsOf_save_if, insertIdsOf]
      intro id hid
      simp only [List.nil_append, List.mem_append, List.mem_singleton] at hid
      rcases hid with hid | hid
      · subst hid; exact h1
      · simp at hid
    · simp only [h1, if_neg, h2, Bool.false_eq_true, if_false, not_false_iff,
        insertIdsOf_append, insertIdsOf_sleep_if, insertIdsOf]
      intro id hid
      simp only [List.nil_append, List.mem_singleton] at hid
      subst hid; exact h1

/-- Ids whose insert the loop starts were not in `copied_ids` when the loop
reached them, hence not in the initial set either. -/
theorem runLoop_insertIds (ins : String → Bool) (adv : Nat → ℚ) :
    ∀ (ts : List Task) (st : LoopState) (id : String),
      id ∈ insertIdsOf (runLoop ins adv st ts).2.1 → id ∉ st.copied := by
  intro ts
  induction ts with
  | nil => intro st id h; simp [runLoop, insertIdsOf] at h
  | cons t ts ih =>
    intro st id h
    simp only [runLoop] at h
    by_cases hab : (processItem ins adv st t).2.2
    · rw [if_pos hab] at h
      exact processItem_insertIds ins adv st t id h
    · rw [if_neg hab] at h
      simp only [insertIdsOf_append, List.mem_append] at h
      rcases h with h | h
      · exact processItem_insertIds ins adv st t id h
      · intro hmem
        exact ih _ id h (processItem_copied_mono ins adv st t hmem)

theorem pairwise_subset_cons_weaken {a b : Finset String} {l : List (Finset String)}
    (h : List.Pairwise (· ⊆ ·) (a :: l)) (hba : b ⊆ a) :
    List.Pairwise (· ⊆ ·) (b :: l) := by
  rcases List.pairwise_cons.mp h with ⟨h1, h2⟩
  exact List.pairwise_cons.mpr ⟨fun x hx => subset_trans hba (h1 x hx), h2⟩

theorem pairwise_const_head {c1 : Finset String} {l1 l2 : List (Finset String)}
    (h1 : ∀ s ∈ l1, s = c1) (h2 : List.Pairwise (· ⊆ ·) (c1 :: l2)) :
    List.Pairwise (· ⊆ ·) (c1 :: (l1 ++ l2)) := by
  induction l1 with
  | nil => simpa using h2
  | cons s l1 ih =>
    have hs : s = c1 := h1 s (by simp)
    subst hs
    have hrest := ih (fun x hx => h1 x (by simp [hx]))
    refine List.pairwise_cons.mpr ⟨?_, hrest⟩
    intro x hx
    rcases List.mem_cons.mp hx with hx | hx
    · exact hx ▸ subset_rfl
    · exact (List.pairwise_cons.mp hrest).1 x hx

theorem pairwise_glue {c0 c1 : Finset String} {l1 l2 : List (Finset String)}
    (h1 : ∀ s ∈ l1, s = c1) (h01 : c0 ⊆ c1) (h2 : List.Pairwise (· ⊆ ·) (c1 :: l2)) :
    List.Pairwise (· ⊆ ·) (c0 :: (l1 ++ l2)) :=
  pairwise_subset_cons_weaken (pairwise_const_head h1 h2) h01

/-- Along the loop, the flushed sets grow: the initial `copied_ids` is below
every flush, consecutive flushes are nested, and every flush is below the
loop's final `copied_ids`. -/
theorem runLoop_saves_invariant (ins : String → Bool) (adv : Nat → ℚ) :
    ∀ (ts : List Task) (st : LoopState),
      List.Pairwise (· ⊆ ·) (st.copied :: savesOf (runLoop ins adv st ts).2.1)
      ∧ ∀ s ∈ savesOf (runLoop ins adv st ts).2.1, s ⊆ (runLoop ins adv st ts).1.copied := by
  intro ts
  induction ts with
  | nil =>
    intro st
    exact ⟨by simp [runLoop, savesOf], by simp [runLoop, savesOf]⟩
  | cons t ts ih =>
    intro st
    simp only [runLoop]
    by_cases hab : (processItem ins adv st t).2.2
    · simp only [hab, if_pos]
      have hsaves := processItem_saves ins adv st t
      have hmono := processItem_copied_mono ins adv st t
      constructor
      · have := @pairwise_glue _ _ _ [] hsaves hmono (List.pairwise_singleton _ _)
        simpa using this
      · intro s hs
        exact (hsaves s hs) ▸ subset_rfl
    · simp only [hab, Bool.false_eq_true, if_neg, not_false_iff, savesOf_append]
      have hsaves := processItem_saves ins adv st t
      have hmono := processItem_copied_mono ins adv st t
      have hih := ih (processItem ins adv st t).1
      have hmono2 := runLoop_copied_mono ins adv ts (processItem ins adv st t).1
      constructor
      · exact pairwise_glue hsaves hmono hih.1
      · intro s hs
        rcases List.mem_append.mp hs with hs | hs
        · exact (hsaves s hs) ▸ hmono2
        · exact hih.2 s hs

/-- The trace of one collection is the loop trace, followed by the final
`save_checkpoint` exactly when no exception escaped the loop. -/
theorem copyCollection_trace (ins : String → Bool) (adv : Nat → ℚ)
    (copied0 : Finset String) (clock0 : ℚ) (tcount0 : Nat) (tasks : List Task) :
    (copyCollection ins adv copied0 clock0 tcount0 tasks).2.1
      = (runLoop ins adv ⟨copied0, 0, 0, 0, clock0, tcount0⟩ tasks).2.1
        ++ (if (runLoop ins adv ⟨copied0, 0, 0, 0, clock0, tcount0⟩ tasks).2.2 then []
            else [Event.save (runLoop ins adv ⟨copied0, 0, 0, 0, clock0, tcount0⟩ tasks).1.copied]) := by
  unfold copyCollection
  by_cases hab : (runLoop ins adv ⟨copied0, 0, 0, 0, clock0, tcount0⟩ tasks).2.2 <;>
    simp [hab]

/-- C9: `build_task_body` emits status `"completed"` iff the source status
is exactly `"completed"`; any other or missing source status yields
exactly `"needsAction"`; and a source item with no `due` field yields a
payload with no `due` key. -/
theorem build_task_body_status_iff_and_no_due (t : Task) :
    ((build_task_body t).status = "completed" ↔ t.status = some "completed")
    ∧ (t.status ≠ some "completed" → (build_task_body t).status = "needsAction")
    ∧ (t.due = none → (build_task_body t).due = none) := by
  refine ⟨?_, ?_, ?_⟩
  · by_cases hs : t.status = some "completed" <;> simp [build_task_body, hs]
  · intro hs
    simp [build_task_body, hs]
  · intro h
    simp [build_task_body, h, truthy]

/-- Witness for C9 at the concrete item `{id := "A"}` (no status, no due):
its payload has status `"needsAction"` and no `due` key. -/
theorem build_task_body_status_iff_and_no_due_witness :
    (build_task_body { id := "A" }).due = none
    ∧ (build_task_body { id := "A" }).status = "needsAction"
    ∧ ((build_task_body { id := "A" }).status = "completed"
        ↔ (Task.mk "A" none none none none none).status = some "completed") :=
  ⟨(build_task_body_status_iff_and_no_due { id := "A" }).2.2 rfl,
    (build_task_body_status_iff_and_no_due { id := "A" }).2.1 (by simp),
    (build_task_body_status_iff_and_no_due { id := "A" }).1⟩

/-- C8: checkpoint round-trip — `load_checkpoint` after `save_checkpoint(S)`
returns exactly `S`, for every finite set `S` of string identifiers,
including the empty set. -/
theorem checkpoint_roundtrip (S : Finset String) :
    load_checkpoint (some (save_checkpoint S)) = S := by
  simp [load_checkpoint, save_checkpoint, Finset.sort_toFinset]

/-- The retry loop never makes more invocations than it has iterations left. -/
theorem countAttempts_execute_from_le {α : Type} (op : Nat → Except HttpError α)
    (jit : Nat → ℚ) :
    ∀ r k last, countAttempts (execute_with_retry_from op jit k r last).1 ≤ r := by
  intro r
  induction r with
  | zero => intro k last; simp [execute_with_retry_from, countAttempts]
  | succ r ih =>
    intro k last
    simp only [execute_with_retry_from]
    cases hop : op k with
    | ok a => simp [countAttempts]
    | error e =>
      by_cases hr : should_retry_http_error e
      · simpa [hr, countAttempts] using Nat.succ_le_succ (ih (k + 1) (some e))
      · simp [hr, countAttempts]

/-- If every attempt in the window fails with a retryable error, the loop
consumes all its iterations and ends in the error of the last attempt. -/
theorem execute_from_all_fail {α : Type} (op : Nat → Except HttpError α)
    (jit : Nat → ℚ) (errs : Nat → HttpError) :
    ∀ r k last, r ≠ 0 →
      (∀ j, k ≤ j → j < k + r → op j = Except.error (errs j)) →
      (∀ j, k ≤ j → j < k + r → should_retry_http_error (errs j) = true) →
      (execute_with_retry_from op jit k r last).2 = Except.error (some (errs (k + r - 1)))
      ∧ countAttempts (execute_with_retry_from op jit k r last).1 = r := by
  intro r
  induction r with
  | zero => intro k last h; exact absurd rfl h
  | succ r ih =>
    intro k last _ hop hr
    have hopk : op k = Except.error (errs k) := hop k le_rfl (by omega)
    have hrk : should_retry_http_error (errs k) = true := hr k le_rfl (by omega)
    rcases Nat.eq_zero_or_pos r with hz | hpos
    · subst hz
      simp [execute_with_retry_from, hopk, hrk, countAttempts]
    · have hih := ih (k + 1) (some (errs k)) (by omega)
        (fun j h1 h2 => hop j (by omega) (by omega))
        (fun j h1 h2 => hr j (by omega) (by omega))
      have harith : k + 1 + r - 1 = k + (r + 1) - 1 := by omega
      rw [harith] at hih
      simp only [execute_with_retry_from, hopk, hrk, if_pos]
      simpa [countAttempts] using hih

/-- C2: if the operation fails with a retryable error on every attempt,
`execute_with_retry` invokes it exactly `MAX_RETRIES = 12` times, then
raises the error of the last (12th) attempt; and for every operation
whatsoever the number of invocations never exceeds `MAX_RETRIES`. -/
theorem retry_bound_and_last_error {α : Type} (op : Nat → Except HttpError α)
    (jit : Nat → ℚ) (errs : Nat → HttpError)
    (hop : ∀ j, j < MAX_RETRIES → op j = Except.error (errs j))
    (hr : ∀ j, j < MAX_RETRIES → should_retry_http_error (errs j) = true) :
    (execute_with_retry op jit).2 = Except.error (some (errs (MAX_RETRIES - 1)))
    ∧ countAttempts (execute_with_retry op jit).1 = MAX_RETRIES
    ∧ ∀ (op' : Nat → Except HttpError α) (jit' : Nat → ℚ),
        countAttempts (execute_with_retry op' jit').1 ≤ MAX_RETRIES := by
  have h := execute_from_all_fail op jit errs MAX_RETRIES 0 none (by decide)
    (fun j _ hj => hop j (by simpa using hj)) (fun j _ hj => hr j (by simpa using hj))
  exact ⟨by simpa [execute_with_retry] using h.1, by simpa [execute_with_retry] using h.2,
    fun op' jit' => countAttempts_execute_from_le op' jit' MAX_RETRIES 0 none⟩

/-- Witness for C2: an operation failing with status 429 on every attempt. -/
theorem retry_bound_and_last_error_witness :
    (@execute_with_retry Unit (fun _ => Except.error ⟨some 429⟩) (fun _ => 0)).2
      = Except.error (some ⟨some 429⟩)
    ∧ countAttempts (@execute_with_retry Unit
        (fun _ => Except.error ⟨some 429⟩) (fun _ => 0)).1 = MAX_RETRIES :=
  ⟨(retry_bound_and_last_error (fun _ => Except.error ⟨some 429⟩) (fun _ => 0)
      (fun _ => ⟨some 429⟩) (fun _ _ => rfl) (fun _ _ => rfl)).1,
    (retry_bound_and_last_error (fun _ => Except.error ⟨some 429⟩) (fun _ => 0)
      (fun _ => ⟨some 429⟩) (fun _ _ => rfl) (fun _ _ => rfl)).2.1⟩

/-- C6: the classifier retries exactly the statuses 403, 429, 500, 503, and
whenever an attempt fails with a non-retryable error the loop re-raises
that error at once: the trace of the remaining run is the single failing
invocation — no sleep and no further attempt. -/
theorem should_retry_iff_and_nonretryable_raises {α : Type} :
    (∀ e : HttpError, should_retry_http_error e = true ↔
      (e.status = some 403 ∨ e.status = some 429 ∨ e.status = some 500 ∨ e.status = some 503))
    ∧ ∀ (op : Nat → Except HttpError α) (jit : Nat → ℚ) (k r : Nat)
        (last : Option HttpError) (e : HttpError),
        op k = Except.error e → should_retry_http_error e = false →
        execute_with_retry_from op jit k (r + 1) last
          = ([RetryEvent.attempt k], Except.error (some e)) := by
  constructor
  · intro e
    cases e with
    | mk status =>
      cases status with
      | none => simp [should_retry_http_error]
      | some s =>
        simp only [should_retry_http_error, Bool.or_eq_true, beq_iff_eq, Option.some.injEq]
        omega
  · intro op jit k r last e hop hr
    simp [execute_with_retry_from, hop, hr]

/-- Shape of the retry trace: position `2*i` (when present) is the i-th
invocation, attempt number `k + i`, and position `2*i + 1` (when present)
is the sleep that followed its retryable failure, of the exact backoff
duration for that attempt. -/
theorem execute_from_trace_shape {α : Type} (op : Nat → Except HttpError α)
    (jit : Nat → ℚ) :
    ∀ r k last i,
      (2 * i < (execute_with_retry_from op jit k r last).1.length →
        (execute_with_retry_from op jit k r last).1.get? (2 * i)
          = some (RetryEvent.attempt (k + i)))
      ∧ (2 * i + 1 < (execute_with_retry_from op jit k r last).1.length →
        (execute_with_retry_from op jit k r last).1.get? (2 * i + 1)
          = some (RetryEvent.sleep (backoff_sleep jit (k + i)))) := by
  intro r
  induction r with
  | zero =>
    intro k last i
    constructor
    · intro h; simp [execute_with_retry_from] at h
    · intro h; simp [execute_with_retry_from] at h
  | succ r ih =>
    intro k last i
    simp only [execute_with_retry_from]
    cases hop : op k with
    | ok a =>
      constructor
      · intro h
        simp only [List.length_singleton] at h
        have hi : i = 0 := by omega
        subst hi; simp
      · intro h; simp only [List.length_singleton] at h; omega
    | error e =>
      by_cases hr : should_retry_http_error e
      · simp only [hr, if_pos]
        cases i with
        | zero =>
          constructor
          · intro _; simp
          · intro _; simp
        | succ i =>
          have hih := ih (k + 1) (some e) i
          constructor
          · intro h
            simp only [List.length_cons] at h
            have h2 : 2 * (i + 1) = 2 * i + 1 + 1 := by omega
            rw [h2]
            simp only [List.get?_cons_succ]
            have : k + 1 + i = k + (i + 1) := by omega
            rw [← this]
            exact hih.1 (by omega)
          · intro h
            simp only [List.length_cons] at h
            have h2 : 2 * (i + 1) + 1 = 2 * i + 1 + 1 + 1 := by omega
            rw [h2]
            simp only [List.get?_cons_succ]
            have : k + 1 + i = k + (i + 1) := by omega
            rw [← this]
            exact hih.2 (by omega)
      · simp only [hr, if_neg, Bool.false_eq_true, not_false_iff]
        constructor
        · intro h
          simp only [List.length_singleton] at h
          have hi : i = 0 := by omega
          subst hi; simp
        · intro h; simp only [List.length_singleton] at h; omega

/-- C7: every sleep the retry loop performs — the event at trace position
`2*k + 1`, right after the k-th invocation (0-indexed attempt `k`) failed
retryably — lasts exactly
`min(BACKOFF_MAX_SEC, BACKOFF_BASE_SEC ^ k) + r` seconds for some jitter
`r ∈ [0, 0.75]`, provided the jitter oracle obeys the range of
`random.uniform(0, 0.75)`. -/
theorem backoff_sleep_exact {α : Type} (op : Nat → Except HttpError α)
    (jit : Nat → ℚ) (hj : ∀ n, 0 ≤ jit n ∧ jit n ≤ JITTER_MAX) (k : Nat)
    (hk : 2 * k + 1 < (execute_with_retry op jit).1.length) :
    (execute_with_retry op jit).1.get? (2 * k) = some (RetryEvent.attempt k)
    ∧ ∃ r, 0 ≤ r ∧ r ≤ JITTER_MAX ∧
        (execute_with_retry op jit).1.get? (2 * k + 1)
          = some (RetryEvent.sleep (min BACKOFF_MAX_SEC (BACKOFF_BASE_SEC ^ k) + r)) := by
  have h := execute_from_trace_shape op jit MAX_RETRIES 0 none k
  refine ⟨?_, jit k, (hj k).1, (hj k).2, ?_⟩
  · have := h.1 (by exact lt_trans (by omega) hk)
    simpa [execute_with_retry] using this
  · have := h.2 hk
    simpa [execute_with_retry, backoff_sleep] using this

/-- Witness for C7: with an always-429 operation and zero jitter, the sleep
after attempt 0 is `min(90, 1.5^0) + 0 = 1` second. -/
theorem backoff_sleep_exact_witness :
    (@execute_with_retry Unit (fun _ => Except.error ⟨some 429⟩)
        (fun _ => 0)).1.get? 0 = some (RetryEvent.attempt 0)
    ∧ ∃ r, 0 ≤ r ∧ r ≤ JITTER_MAX ∧
        (@execute_with_retry Unit (fun _ => Except.error ⟨some 429⟩)
            (fun _ => 0)).1.get? 1
          = some (RetryEvent.sleep (min BACKOFF_MAX_SEC (BACKOFF_BASE_SEC ^ 0) + r)) :=
  backoff_sleep_exact (fun _ => Except.error ⟨some 429⟩) (fun _ => 0)
    (fun _ => ⟨le_refl 0, by norm_num [JITTER_MAX]⟩) 0 (by decide)

/-- Witness for C6: a 404 error is re-raised immediately with one attempt. -/
theorem should_retry_iff_and_nonretryable_raises_witness :
    @execute_with_retry Unit (fun _ => Except.error ⟨some 404⟩) (fun _ => 0)
      = ([RetryEvent.attempt 0], Except.error (some ⟨some 404⟩)) :=
  (@should_retry_iff_and_nonretryable_raises Unit).2
    (fun _ => Except.error ⟨some 404⟩) (fun _ => 0) 0 11 none ⟨some 404⟩ rfl (by decide)

/-- C1: an item whose id is already in `copied_ids` is skipped: the
iteration makes no insert call, increments only the skipped counter, and
leaves the checkpoint set untouched; and across a whole collection run,
every insert that is started is for an id not in the loaded checkpoint
set. -/
theorem checkpointed_item_skipped (ins : String → Bool) (adv : Nat → ℚ) :
    (∀ (st : LoopState) (t : Task), t.id ∈ st.copied →
      processItem ins adv st t
        = ({ st with skipped := st.skipped + 1 }, [Event.skip t.id], false))
    ∧ ∀ (copied0 : Finset String) (clock0 : ℚ) (tcount0 : Nat) (tasks : List Task)
        (id : String), id ∈ copied0 →
        id ∉ insertIdsOf (copyCollection ins adv copied0 clock0 tcount0 tasks).2.1 := by
  refine ⟨fun st t h => processItem_of_mem ins adv st t h, ?_⟩
  intro copied0 clock0 tcount0 tasks id hmem hins
  rw [copyCollection_trace, insertIdsOf_append] at hins
  rcases List.mem_append.mp hins with h | h
  · exact runLoop_insertIds ins adv tasks ⟨copied0, 0, 0, 0, clock0, tcount0⟩ id h hmem
  · rcases ite_eq_or_eq ((runLoop ins adv ⟨copied0, 0, 0, 0, clock0, tcount0⟩ tasks).2.2 = true)
      ([] : List Event) [Event.save (runLoop ins adv ⟨copied0, 0, 0, 0, clock0, tcount0⟩ tasks).1.copied]
      with he | he <;> rw [he] at h <;> simp [insertIdsOf] at h

/-- Witness for C1: with `copied_ids = {"a"}`, processing the item `"a"`
only bumps the skip counter, and the collection run starts no insert
for `"a"`. -/
theorem checkpointed_item_skipped_witness :
    processItem (fun _ => true) (fun _ => 0) ⟨{"a"}, 0, 0, 0, 0, 0⟩ { id := "a" }
      = (⟨{"a"}, 1, 0, 0, 0, 0⟩, [Event.skip "a"], false)
    ∧ "a" ∉ insertIdsOf
        (copyCollection (fun _ => true) (fun _ => 0) {"a"} 0 0 [{ id := "a" }]).2.1 :=
  ⟨(checkpointed_item_skipped (fun _ => true) (fun _ => 0)).1
      ⟨{"a"}, 0, 0, 0, 0, 0⟩ { id := "a" } (Finset.mem_singleton_self "a"),
    (checkpointed_item_skipped (fun _ => true) (fun _ => 0)).2
      {"a"} 0 0 [{ id := "a" }] "a" (Finset.mem_singleton_self "a")⟩

/-- C10: within a run the checkpoint only grows — the loaded set is below
every flushed set, and the flushed sets are pairwise nested in flush
order. -/
theorem checkpoint_monotone_growth (ins : String → Bool) (adv : Nat → ℚ)
    (copied0 : Finset String) (clock0 : ℚ) (tcount0 : Nat) (tasks : List Task) :
    List.Pairwise (· ⊆ ·)
      (copied0 :: savesOf (copyCollection ins adv copied0 clock0 tcount0 tasks).2.1) := by
  rw [copyCollection_trace, savesOf_append]
  have hinv := runLoop_saves_invariant ins adv tasks ⟨copied0, 0, 0, 0, clock0, tcount0⟩
  by_cases hab : (runLoop ins adv ⟨copied0, 0, 0, 0, clock0, tcount0⟩ tasks).2.2
  · simp only [hab, if_pos, savesOf, List.append_nil]
    exact hinv.1
  · simp only [hab, Bool.false_eq_true, if_neg, not_false_iff, savesOf]
    rw [← List.cons_append]
    refine List.pairwise_append.mpr ⟨hinv.1, List.pairwise_singleton _ _, ?_⟩
    intro a ha b hb
    rw [List.mem_singleton] at hb
    subst hb
    rcases List.mem_cons.mp ha with ha | ha
    · rw [ha]
      exact runLoop_copied_mono ins adv tasks ⟨copied0, 0, 0, 0, clock0, tcount0⟩
    · exact hinv.2 a ha

/-- C4 counterexample: one item, whose insert raises a terminal failure —
the loop aborts and the collection ends with NO checkpoint flush at all,
although the claim requires an unconditional end-of-collection flush even
on exit via terminal failure. -/
theorem terminal_failure_skips_final_flush :
    savesOf (copyCollection (fun _ => false) (fun _ => 0) ∅ 0 0 [{ id := "a" }]).2.1 = []
    ∧ (copyCollection (fun _ => false) (fun _ => 0) ∅ 0 0 [{ id := "a" }]).2.2 = true := by
  constructor <;>
    simp [copyCollection, runLoop, processItem, savesOf_append, savesOf_sleep_if, savesOf]

/-- C4 amended: the checkpoint is flushed exactly when an insertion brings
the per-collection counter to a multiple of 20, and the unconditional
end-of-collection flush happens only when the loop completes without a
terminal failure — a terminal failure propagates out before it. -/
theorem checkpoint_flush_policy (ins : String → Bool) (adv : Nat → ℚ) :
    (∀ (st : LoopState) (t : Task), t.id ∉ st.copied → ins t.id = true →
      ((processItem ins adv st t).1.inserted % 20 = 0 →
        savesOf (processItem ins adv st t).2.1 = [(processItem ins adv st t).1.copied])
      ∧ ((processItem ins adv st t).1.inserted % 20 ≠ 0 →
        savesOf (processItem ins adv st t).2.1 = []))
    ∧ ∀ (copied0 : Finset String) (clock0 : ℚ) (tcount0 : Nat) (tasks : List Task),
        ((runLoop ins adv ⟨copied0, 0, 0, 0, clock0, tcount0⟩ tasks).2.2 = false →
          (copyCollection ins adv copied0 clock0 tcount0 tasks).2.1
            = (runLoop ins adv ⟨copied0, 0, 0, 0, clock0, tcount0⟩ tasks).2.1
              ++ [Event.save (runLoop ins adv ⟨copied0, 0, 0, 0, clock0, tcount0⟩ tasks).1.copied])
        ∧ ((runLoop ins adv ⟨copied0, 0, 0, 0, clock0, tcount0⟩ tasks).2.2 = true →
          (copyCollection ins adv copied0 clock0 tcount0 tasks).2.1
            = (runLoop ins adv ⟨copied0, 0, 0, 0, clock0, tcount0⟩ tasks).2.1) := by
  constructor
  · intro st t h1 h2
    constructor
    · intro h20
      unfold processItem at h20 ⊢
      by_cases hc : (st.inserted + 1) % 20 = 0
      · simp [h1, h2, hc, savesOf_append, savesOf_sleep_if, savesOf]
      · simp [h1, h2, hc] at h20
    · intro h20
      unfold processItem at h20 ⊢
      by_cases hc : (st.inserted + 1) % 20 = 0
      · simp [h1, h2, hc] at h20
      · simp [h1, h2, hc, savesOf_append, savesOf_sleep_if, savesOf]
  · intro copied0 clock0 tcount0 tasks
    constructor
    · intro hab
      rw [copyCollection_trace, hab]
      simp
    · intro hab
      rw [copyCollection_trace, hab]
      simp

/-- Witness for C4 amended: the 20th insertion flushes the (singleton) new
set; an empty collection flushes once at its end. -/
theorem checkpoint_flush_policy_witness :
    savesOf (processItem (fun _ => true) (fun _ => 0) ⟨∅, 0, 19, 0, 0, 0⟩ { id := "a" }).2.1
      = [(processItem (fun _ => true) (fun _ => 0) ⟨∅, 0, 19, 0, 0, 0⟩ { id := "a" }).1.copied]
    ∧ (copyCollection (fun _ => true) (fun _ => 0) ∅ 0 0 []).2.1
        = (runLoop (fun _ => true) (fun _ => 0) ⟨∅, 0, 0, 0, 0, 0⟩ []).2.1
          ++ [Event.save (runLoop (fun _ => true) (fun _ => 0) ⟨∅, 0, 0, 0, 0, 0⟩ []).1.copied] :=
  ⟨((checkpoint_flush_policy (fun _ => true) (fun _ => 0)).1
      ⟨∅, 0, 19, 0, 0, 0⟩ { id := "a" } (Finset.not_mem_empty "a") rfl).1 (by decide),
    ((checkpoint_flush_policy (fun _ => true) (fun _ => 0)).2 ∅ 0 0 []).1 rfl⟩

/-- A serialized checkpoint is never the empty string (it always opens the
JSON object). -/
theorem serialize_checkpoint_ne_empty (l : List String) : serialize_checkpoint l ≠ "" := by
  intro h
  have hd := congrArg String.data h
  rw [serialize_checkpoint, String.data_append, String.data_append] at hd
  have h1 := (List.append_eq_nil.mp (List.append_eq_nil.mp hd).1).1
  exact absurd h1 (by decide)

/-- C3 counterexample: while `save_checkpoint` rewrites the checkpoint file
from the serialization of `{"a"}` to that of `{"b"}`, the file passes
through the state `some ""` — the truncation done by
`open(CHECKPOINT_FILE, "w")`.  That intermediate state is not the previous
content, and it is not readable as a checkpoint, so an interruption there
loses the old content and leaves an unreadable file: `save_checkpoint` is
not write-to-temp-then-replace. -/
theorem save_not_atomic_counterexample :
    (save_checkpoint_file_states (some (serialize_checkpoint ["a"])) {"b"}).get? 1
      = some (some "")
    ∧ some "" ≠ some (serialize_checkpoint ["a"])
    ∧ ¬ is_serialized_checkpoint "" := by
  refine ⟨rfl, ?_, ?_⟩
  · intro h
    exact serialize_checkpoint_ne_empty ["a"] (Option.some.inj h).symm
  · rintro ⟨l, hl⟩
    exact serialize_checkpoint_ne_empty l hl.symm

/-- C3 amended: `save_checkpoint` is a full in-place overwrite — it first
truncates the checkpoint file to empty (destroying the previous content
before the new content is committed) and, once it completes, the file
holds exactly the full serialization of the sorted id set. -/
theorem save_checkpoint_overwrites_in_place (prior : Option String) (S : Finset String) :
    (save_checkpoint_file_states prior S).get? 0 = some prior
    ∧ (save_checkpoint_file_states prior S).get? 1 = some (some "")
    ∧ (save_checkpoint_file_states prior S).getLast?
        = some (some (serialize_checkpoint (S.sort (· ≤ ·)))) :=
  ⟨rfl, rfl, rfl⟩

theorem min_interval_nonneg : (0 : ℚ) ≤ MIN_INSERT_INTERVAL_SEC := by
  norm_num [MIN_INSERT_INTERVAL_SEC]

/-- The wall-clock time at which the next insert starts: `time.time()` plus
the throttle sleep, when one is needed. -/
def pStart (adv : Nat → ℚ) (st : LoopState) : ℚ :=
  if st.clock + adv st.tcount - st.last_insert_time < MIN_INSERT_INTERVAL_SEC
    then st.clock + adv st.tcount
      + (MIN_INSERT_INTERVAL_SEC - (st.clock + adv st.tcount - st.last_insert_time))
    else st.clock + adv st.tcount

/-- The throttle guarantees the next insert starts no earlier than
`last_insert_time + MIN_INSERT_INTERVAL_SEC`. -/
theorem pStart_ge (adv : Nat → ℚ) (st : LoopState) :
    st.last_insert_time + MIN_INSERT_INTERVAL_SEC ≤ pStart adv st := by
  unfold pStart
  by_cases h : st.clock + adv st.tcount - st.last_insert_time < MIN_INSERT_INTERVAL_SEC
  · rw [if_pos h]; linarith
  · rw [if_neg h]; have := le_of_not_lt h; linarith

/-- A non-skipped item starts exactly one insert, at time `pStart`. -/
theorem processItem_startsOf_not_mem (ins : String → Bool) (adv : Nat → ℚ)
    (st : LoopState) (t : Task) (h1 : t.id ∉ st.copied) :
    startsOf (processItem ins adv st t).2.1 = [pStart adv st] := by
  unfold processItem pStart
  by_cases h2 : ins t.id = true <;>
    simp [h1, h2, startsOf_append, startsOf_sleep_if, startsOf_save_if, startsOf]

/-- After a terminal insert failure, `last_insert_time` is unchanged and the
clock stands at the failed insert's start. -/
theorem processItem_state_fail (ins : String → Bool) (adv : Nat → ℚ)
    (st : LoopState) (t : Task) (h1 : t.id ∉ st.copied) (h2 : ins t.id = false) :
    (processItem ins adv st t).1.last_insert_time = st.last_insert_time
    ∧ (processItem ins adv st t).1.clock = pStart adv st
    ∧ (processItem ins adv st t).2.2 = true := by
  unfold processItem pStart
  simp [h1, h2]

/-- After a successful insert, `last_insert_time` is the post-insert
`time.time()` — at or after the insert's start — and equals the clock. -/
theorem processItem_state_ok (ins : String → Bool) (adv : Nat → ℚ)
    (st : LoopState) (t : Task) (h1 : t.id ∉ st.copied) (h2 : ins t.id = true) :
    (processItem ins adv st t).1.last_insert_time = pStart adv st + adv (st.tcount + 1)
    ∧ (processItem ins adv st t).1.clock = (processItem ins adv st t).1.last_insert_time
    ∧ (processItem ins adv st t).2.2 = false := by
  unfold processItem pStart
  simp [h1, h2]

theorem chain_spaced_cons_of_le {b a : ℚ} {l : List ℚ} (hba : b ≤ a)
    (h : List.Chain' (fun x y => x + MIN_INSERT_INTERVAL_SEC ≤ y) (a :: l)) :
    List.Chain' (fun x y => x + MIN_INSERT_INTERVAL_SEC ≤ y) (b :: l) := by
  cases l with
  | nil => exact List.chain'_singleton _
  | cons c l =>
    rw [List.chain'_cons] at h ⊢
    exact ⟨by linarith [h.1], h.2⟩

/-- Spacing invariant of the copy loop: starting from any state whose
`last_insert_time` is in the past, consecutive insert start times are at
least `MIN_INSERT_INTERVAL_SEC` apart (and the first start is at least
that far after `last_insert_time`). -/
theorem runLoop_spacing (ins : String → Bool) (adv : Nat → ℚ) (hadv : ∀ n, 0 ≤ adv n) :
    ∀ (ts : List Task) (st : LoopState), st.last_insert_time ≤ st.clock →
      List.Chain' (fun a b => a + MIN_INSERT_INTERVAL_SEC ≤ b)
        (st.last_insert_time :: startsOf (runLoop ins adv st ts).2.1)
      ∧ (runLoop ins adv st ts).1.last_insert_time ≤ (runLoop ins adv st ts).1.clock := by
  intro ts
  induction ts with
  | nil => intro st h; exact ⟨by simp [runLoop, startsOf], h⟩
  | cons t ts ih =>
    intro st hst
    simp only [runLoop]
    by_cases h1 : t.id ∈ st.copied
    · rw [processItem_of_mem ins adv st t h1]
      simp only [Bool.false_eq_true, if_neg, not_false_iff]
      have hih := ih { st with skipped := st.skipped + 1 } hst
      simpa [startsOf_append, startsOf] using hih
    · have hS := processItem_startsOf_not_mem ins adv st t h1
      have hge : st.last_insert_time + MIN_INSERT_INTERVAL_SEC ≤ pStart adv st :=
        pStart_ge adv st
      by_cases h2 : ins t.id = true
      · have hok := processItem_state_ok ins adv st t h1 h2
        rw [if_neg (by rw [hok.2.2]; exact Bool.false_ne_true)]
        have hst2 : (processItem ins adv st t).1.last_insert_time
            ≤ (processItem ins adv st t).1.clock := le_of_eq hok.2.1.symm
        have hih := ih (processItem ins adv st t).1 hst2
        refine ⟨?_, hih.2⟩
        rw [startsOf_append, hS]
        rw [List.singleton_append, List.chain'_cons]
        refine ⟨hge, ?_⟩
        refine chain_spaced_cons_of_le ?_ hih.1
        rw [hok.1]
        have := hadv (st.tcount + 1)
        linarith
      · have hfail := processItem_state_fail ins adv st t h1
          (by revert h2; cases ins t.id <;> simp)
        rw [if_pos hfail.2.2]
        refine ⟨?_, ?_⟩
        · rw [hS, List.chain'_cons]
          exact ⟨hge, List.chain'_singleton _⟩
        · rw [hfail.1, hfail.2.1]
          have := min_interval_nonneg
          linarith

theorem startsOf_final_save_if (c : Prop) [Decidable c] (s : Finset String) :
    startsOf (if c then [] else [Event.save s]) = [] := by
  split <;> simp [startsOf]

/-- C5 amended: within one collection's copy loop, the wall-clock start
times of consecutive destination inserts are at least
`MIN_INSERT_INTERVAL_SEC` (0.35 s) apart, provided time only moves
forward (`adv` non-negative) and the run starts at a non-negative
wall-clock time.  The guarantee is per collection only: `transfer` resets
`last_insert_time = 0.0` at each collection boundary (line 175), so the
first insert of a collection is not spaced against the previous
collection's writes. -/
theorem insert_start_spacing (ins : String → Bool) (adv : Nat → ℚ)
    (copied0 : Finset String) (clock0 : ℚ) (tcount0 : Nat) (tasks : List Task)
    (hadv : ∀ n, 0 ≤ adv n) (hclock : 0 ≤ clock0) :
    List.Chain' (fun a b => a + MIN_INSERT_INTERVAL_SEC ≤ b)
      (startsOf (copyCollection ins adv copied0 clock0 tcount0 tasks).2.1) := by
  rw [copyCollection_trace, startsOf_append, startsOf_final_save_if, List.append_nil]
  have h := runLoop_spacing ins adv hadv tasks ⟨copied0, 0, 0, 0, clock0, tcount0⟩ hclock
  exact h.1.tail

/-- Witness for C5 amended: two fresh items inserted back to back. -/
theorem insert_start_spacing_witness :
    List.Chain' (fun a b => a + MIN_INSERT_INTERVAL_SEC ≤ b)
      (startsOf (copyCollection (fun _ => true) (fun _ => 0) ∅ 0 0
          [{ id := "a" }, { id := "b" }]).2.1) :=
  insert_start_spacing (fun _ => true) (fun _ => 0) ∅ 0 0
    [{ id := "a" }, { id := "b" }] (fun _ => le_refl 0) (le_refl 0)

/-- C5 counterexample: two collections of one fresh item each, processed
back to back with zero latency.  The first collection's insert starts at
t = 0.35 (throttled from t = 0); the second collection resets
`last_insert_time` to 0.0, so its elapsed-time check passes at once and
its insert also starts at t = 0.35 — two consecutive destination writes
of the same run whose start times are 0 s apart, not 0.35 s. -/
theorem cross_collection_spacing_violated :
    startsOf (copyPhase (fun _ => true) (fun _ => 0)
        [[{ id := "a" }], [{ id := "b" }]] ∅ 0 0).2.1
      = [MIN_INSERT_INTERVAL_SEC, MIN_INSERT_INTERVAL_SEC]
    ∧ ¬ List.Chain' (fun a b => a + MIN_INSERT_INTERVAL_SEC ≤ b)
        (startsOf (copyPhase (fun _ => true) (fun _ => 0)
            [[{ id := "a" }], [{ id := "b" }]] ∅ 0 0).2.1) := by
  have h1 : startsOf (copyPhase (fun _ => true) (fun _ => 0)
      [[{ id := "a" }], [{ id := "b" }]] ∅ 0 0).2.1
      = [MIN_INSERT_INTERVAL_SEC, MIN_INSERT_INTERVAL_SEC] := by
    norm_num [copyPhase, copyCollection, runLoop, processItem, MIN_INSERT_INTERVAL_SEC,
      startsOf_append, startsOf_sleep_if, startsOf_save_if, startsOf]
  refine ⟨h1, ?_⟩
  rw [h1]
  rw [List.chain'_cons]
  intro h
  have := h.1
  rw [MIN_INSERT_INTERVAL_SEC] at this
  norm_num at this

end TransferTasks
